import Mathlib

/-
Verification of the authoritative session engine of a small real-time
space-strategy backend: deterministic world simulation (planets, fleets,
combat), per-match session (room) state with pending-delta accumulation,
and the broadcast throttling logic.  Numbers that the source manipulates
as IEEE doubles are modelled as rationals; the only transcendental
operations (the unit direction vector obtained through atan2 / cos / sin
when a fleet is launched) are abstracted as an explicit function
parameter, and square-root comparisons are expressed by their exact
square-free equivalents.
-/

/-- Owner enumeration of the wire protocol. -/
inductive Owner where
  | NEUTRAL
  | PLAYER1
  | PLAYER2
  | PLAYER3
  | PLAYER4
deriving DecidableEq, Repr

/-- Planet record of the simulation state. -/
structure Planet where
  id : ℕ
  x : ℚ
  y : ℚ
  r : ℚ
  owner : Owner
  ships : ℚ
  production : ℚ
deriving DecidableEq, Repr

/-- Fleet record of the simulation state. -/
structure Fleet where
  id : ℕ
  owner : Owner
  ships : ℚ
  x : ℚ
  y : ℚ
  vx : ℚ
  vy : ℚ
  fromId : ℕ
  toId : ℕ
deriving DecidableEq, Repr

/-- Per-match immutable configuration. -/
structure SimConfig where
  width : ℚ
  height : ℚ
  seed : ℤ
  planetCount : ℕ
  minR : ℚ
  maxR : ℚ
  fleetSpeed : ℚ
  tickRate : ℚ
  deltaHz : ℚ
  numPlayers : ℕ
deriving DecidableEq, Repr

/-- Simulation state: config, tick counter, planets array, live fleet
collection (a JS `Map` keyed by fleet id, iterated in insertion order, so
modelled as an insertion-ordered list) and the next fleet id. -/
structure SimState where
  cfg : SimConfig
  tick : ℕ
  planets : List Planet
  fleets : List Fleet
  nextFleetId : ℕ
deriving DecidableEq, Repr

/-- Squared Euclidean distance. -/
def dist2 (x1 y1 x2 y2 : ℚ) : ℚ := (x2 - x1) ^ 2 + (y2 - y1) ^ 2

/-- The source's comparison `dist(x1,y1,x2,y2) <= d` (with
`dist = Math.hypot`, the Euclidean distance): since the distance is the
nonnegative square root of `dist2`, `dist ≤ d` holds exactly when
`0 ≤ d` and `dist2 ≤ d ^ 2`, which is how we state it, keeping the
development inside the rationals. -/
def distLe (x1 y1 x2 y2 d : ℚ) : Prop :=
  0 ≤ d ∧ dist2 x1 y1 x2 y2 ≤ d ^ 2

instance (x1 y1 x2 y2 d : ℚ) : Decidable (distLe x1 y1 x2 y2 d) :=
  inferInstanceAs (Decidable (_ ∧ _))

/-- The source's comparison `dist(x1,y1,x2,y2) > d`. -/
def distGt (x1 y1 x2 y2 d : ℚ) : Prop :=
  ¬ distLe x1 y1 x2 y2 d

instance (x1 y1 x2 y2 d : ℚ) : Decidable (distGt x1 y1 x2 y2 d) :=
  inferInstanceAs (Decidable (¬ _))

/-- JavaScript `Math.round`: round half towards positive infinity. -/
def roundQ (q : ℚ) : ℤ := ⌊q + 1 / 2⌋

/-- `this.planets.find(p => p.id === id)`. -/
def findPlanet (ps : List Planet) (pid : ℕ) : Option Planet :=
  ps.find? (fun p => p.id == pid)

/-- Mutation `from.ships -= amt` of the object returned by `find`:
updates the first planet in the array whose id matches. -/
def debitFirst : List Planet → ℕ → ℚ → List Planet
  | [], _, _ => []
  | p :: rest, pid, amt =>
    if p.id == pid then { p with ships := p.ships - amt } :: rest
    else p :: debitFirst rest pid amt

/-- One iteration of the source-planet loop of `issueOrders`: look the
source planet up by id in the current planet array, silently skip it
when it is missing, not owned by the caller, equal to the target, or
when the computed send amount is not positive; otherwise debit it and
create one fleet.  The accumulator threads the planet array, the next
fleet id and the created fleets.  `dir dy dx` stands for the pair
`(Math.cos ang, Math.sin ang)` with `ang = Math.atan2 dy dx`; it is an
irrational-valued quantity no claim depends on, so it is passed in as
an explicit parameter instead of being fixed. -/
def orderStep (cfg : SimConfig) (owner : Owner) (targetId : ℕ) (pct : ℚ)
    (dir : ℚ → ℚ → ℚ × ℚ) (target : Planet)
    (acc : List Planet × ℕ × List Fleet) (pid : ℕ) :
    List Planet × ℕ × List Fleet :=
  match findPlanet acc.1 pid with
  | none => acc
  | some fromP =>
    if fromP.owner ≠ owner then acc
    else if fromP.id = targetId then acc
    else
      let send : ℤ := ⌊fromP.ships * min 1 pct⌋
      if send ≤ 0 then acc
      else
        let cs := dir (target.y - fromP.y) (target.x - fromP.x)
        let f : Fleet :=
          { id := acc.2.1, owner := owner, ships := (send : ℚ),
            x := fromP.x + cs.1 * (fromP.r + 6),
            y := fromP.y + cs.2 * (fromP.r + 6),
            vx := cs.1 * cfg.fleetSpeed, vy := cs.2 * cfg.fleetSpeed,
            fromId := fromP.id, toId := target.id }
        (debitFirst acc.1 pid (send : ℚ), acc.2.1 + 1, acc.2.2 ++ [f])

/-- `SimState.issueOrders` of the source. -/
def SimState.issueOrders (s : SimState) (owner : Owner) (fromIds : List ℕ)
    (targetId : ℕ) (pct : ℚ) (dir : ℚ → ℚ → ℚ × ℚ) :
    SimState × List Fleet :=
  if pct ≤ 0 then (s, []) else
  match findPlanet s.planets targetId with
  | none => (s, [])
  | some target =>
    let res := fromIds.foldl (orderStep s.cfg owner targetId pct dir target)
      (s.planets, s.nextFleetId, ([] : List Fleet))
    ({ s with planets := res.1, nextFleetId := res.2.1,
              fleets := s.fleets ++ res.2.2 }, res.2.2)

/-- Production accrual: every non-neutral planet gains
`production * dt` ships. -/
def accrue (dt : ℚ) (ps : List Planet) : List Planet :=
  ps.map (fun p =>
    if p.owner ≠ Owner.NEUTRAL then { p with ships := p.ships + p.production * dt }
    else p)

/-- Fleet movement of one step: `f.x += f.vx * dt; f.y += f.vy * dt`. -/
def moveFleet (dt : ℚ) (f : Fleet) : Fleet :=
  { f with x := f.x + f.vx * dt, y := f.y + f.vy * dt }

/-- Arrival resolution of one fleet against its destination planet (the
body of the arrival branch of `SimState.step`). -/
def resolveCombat (tgt : Planet) (f : Fleet) : Planet :=
  if f.owner = tgt.owner then { tgt with ships := tgt.ships + f.ships }
  else
    let remaining := tgt.ships - f.ships
    if remaining < 0 then { tgt with owner := f.owner, ships := |remaining| }
    else { tgt with ships := remaining }

/-- One iteration of the fleet loop of `SimState.step`: move the fleet,
look its destination up positionally (`this.planets[f.toId]`), resolve
if within the destination radius (recording the removed id), otherwise
keep the moved fleet.  The accumulator threads the planet array, the
surviving fleets and the removed ids. -/
def stepFleet (dt : ℚ) (acc : List Planet × List Fleet × List ℕ) (f : Fleet) :
    List Planet × List Fleet × List ℕ :=
  let f' := moveFleet dt f
  match acc.1[f'.toId]? with
  | some tgt =>
    if distLe f'.x f'.y tgt.x tgt.y tgt.r then
      (acc.1.set f'.toId (resolveCombat tgt f'), acc.2.1, acc.2.2 ++ [f'.id])
    else (acc.1, acc.2.1 ++ [f'], acc.2.2)
  | none => (acc.1, acc.2.1 ++ [f'], acc.2.2)

/-- `SimState.step` of the source: accrue production, run the fleet
loop (removed fleets are deleted from the map after the loop, modelled
by keeping exactly the survivors), increment the tick; returns the new
state and the removed fleet ids. -/
def SimState.step (s : SimState) (dt : ℚ) : SimState × List ℕ :=
  let res := s.fleets.foldl (stepFleet dt) (accrue dt s.planets, [], [])
  ({ s with planets := res.1, fleets := res.2.1, tick := s.tick + 1 }, res.2.2)

-- sanity checks of the rational arithmetic used later
example : roundQ (43 / 2) = 22 := by norm_num [roundQ]
example : distLe 0 0 0 0 10 := by norm_num [distLe, dist2]

/-
World generation (`SimState.initMap`).  The seeded pseudo-random
generator `randSeeded` produces a deterministic stream of values in
[0,1); the stream is modelled as a function `rand : ℕ → ℚ` giving the
value of the n-th call, consumed sequentially (five calls per placement
iteration: radius, x, y, production, initial ship count).  The source's
`while` loop has no a-priori iteration bound, so it is modelled with
explicit fuel: a `false` flag in the result means the fuel ran out with
the loop still running.
-/

/-- The candidate planet built in one iteration of the placement loop
(`k` is the iteration index, `idx = this.planets.length` the id the
candidate would receive; the hard-coded padding is 64). -/
def mkCandidate (cfg : SimConfig) (rand : ℕ → ℚ) (k idx : ℕ) : Planet :=
  let r := cfg.minR + (cfg.maxR - cfg.minR) * rand (5 * k)
  let x := 64 + r + (cfg.width - 2 * (64 + r)) * rand (5 * k + 1)
  let y := 64 + r + (cfg.height - 2 * (64 + r)) * rand (5 * k + 2)
  let production := r / cfg.maxR * (7 / 10 + rand (5 * k + 3) * (3 / 5))
  { id := idx, x := x, y := y, r := r, owner := Owner.NEUTRAL,
    ships := (roundQ (r * (6 / 5 + rand (5 * k + 4))) : ℚ),
    production := production }

/-- One iteration body of the placement loop: build the candidate and
append it when it clears every accepted planet by the 16-unit margin. -/
def placeStep (cfg : SimConfig) (rand : ℕ → ℚ) (k : ℕ) (ps : List Planet) :
    List Planet :=
  let c := mkCandidate cfg rand k ps.length
  if ∀ p ∈ ps, distGt p.x p.y c.x c.y (p.r + c.r + 16) then ps ++ [c]
  else ps

/-- The placement `while` loop with fuel.  Second component `true`
means the loop exited (condition became false, or the `length > 2000`
break fired); `false` means the fuel was exhausted with the loop still
running. -/
def initMapLoopF (cfg : SimConfig) (rand : ℕ → ℚ) :
    ℕ → ℕ → List Planet → List Planet × Bool
  | 0, _, ps => (ps, false)
  | fuel + 1, k, ps =>
    if ps.length < cfg.planetCount then
      let ps' := placeStep cfg rand k ps
      if ps'.length > 2000 then (ps', true)
      else initMapLoopF cfg rand fuel (k + 1) ps'
    else (ps, true)

/-- Squared distance between the planets at positions `i` and `j` of the
array (both always in range where this is used). -/
def pairDist2 (ps : List Planet) (i j : ℕ) : ℚ :=
  match ps[i]?, ps[j]? with
  | some a, some b => dist2 a.x a.y b.x b.y
  | _, _ => 0

/-- The farthest-pair scan of `initMap`: double loop over `i < j`
keeping the pair of maximal distance, starting from `(0, 1)` with best
distance −1.  The source compares Euclidean distances; comparing the
squares is equivalent (the square root is strictly monotone on
nonnegative values, and the −1 sentinel loses against any true
distance in both versions), so the selected pair is identical. -/
def farthestPair (ps : List Planet) : ℕ × ℕ :=
  let n := ps.length
  let best := (List.range n).foldl (fun acc i =>
    (List.range n).foldl (fun acc2 j =>
      if i < j then
        if pairDist2 ps i j > acc2.2.2 then (i, j, pairDist2 ps i j) else acc2
      else acc2) acc) (0, 1, (-1 : ℚ))
  (best.1, best.2.1)

/-- The starting-base assignment applied to the two selected planets:
`owner`, `ships = max(40, r * 2.2)`, `production *= 1.1`. -/
def makeStart (o : Owner) (p : Planet) : Planet :=
  { p with owner := o, ships := max 40 (p.r * (11 / 5)),
           production := p.production * (11 / 10) }

/-- Planet list after the post-placement ownership assignment of
`initMap`: when at least `numPlayers` planets were placed, the farthest
pair becomes the starting bases of PLAYER1 and (when `numPlayers ≥ 2`)
PLAYER2. -/
def assignBases (cfg : SimConfig) (ps : List Planet) : List Planet :=
  if cfg.numPlayers ≤ ps.length then
    let ij := farthestPair ps
    let ps1 := match ps[ij.1]? with
      | some p => ps.set ij.1 (makeStart Owner.PLAYER1 p)
      | none => ps
    if 2 ≤ cfg.numPlayers then
      match ps1[ij.2]? with
      | some p => ps1.set ij.2 (makeStart Owner.PLAYER2 p)
      | none => ps1
    else ps1
  else ps

/-- The simulation state the `SimState` constructor produces (placement
loop run with the given fuel, then base assignment). -/
def initState (cfg : SimConfig) (rand : ℕ → ℚ) (fuel : ℕ) : SimState :=
  { cfg := cfg, tick := 0,
    planets := assignBases cfg (initMapLoopF cfg rand fuel 0 []).1,
    fleets := [], nextFleetId := 1 }

/-
Session (Room) layer.  Connections are identified by natural numbers;
`clients` is the JS `Set` of sockets (insertion-ordered, duplicate
free), `players` the JS `Map` from socket to seat (insertion-ordered,
one entry per key).  The `Welcome` message a `join` sends is network
I/O computed from the state and is not part of the state itself.
-/

/-- JS `Set.add`: append if absent. -/
def setInsert (l : List ℕ) (x : ℕ) : List ℕ :=
  if x ∈ l then l else l ++ [x]

/-- JS `Map.set`: replace the entry in place, or append a new one. -/
def mapSet {α : Type} : List (ℕ × α) → ℕ → α → List (ℕ × α)
  | [], k, v => [(k, v)]
  | (k', v') :: t, k, v =>
    if k' = k then (k, v) :: t else (k', v') :: mapSet t k v

/-- Per-planet entry of an outbound Delta / Snapshot (ship count sent
rounded). -/
structure PlanetDelta where
  id : ℕ
  owner : Owner
  ships : ℤ
deriving DecidableEq, Repr

/-- Outbound Delta message body. -/
structure Delta where
  tick : ℕ
  planets : List PlanetDelta
  fleets : List (ℕ × ℚ × ℚ)
  remove_fleets : List ℕ
  new_fleets : List Fleet
deriving DecidableEq, Repr

/-- Session state (`class Room`). -/
structure Room where
  id : ℕ
  sim : SimState
  clients : List ℕ
  players : List (ℕ × Owner)
  lastDeltaSent : ℚ
  changedPlanets : List ℕ
  movedFleets : List (ℕ × ℚ × ℚ)
  newFleets : List Fleet
deriving DecidableEq, Repr

/-- A fresh room as the `Room` constructor creates it; the source
builds `sim` as `new SimState(cfg)` (modelled by `initState`), passed
in here explicitly. -/
def mkRoom (id : ℕ) (sim : SimState) : Room :=
  { id := id, sim := sim, clients := [], players := [],
    lastDeltaSent := 0, changedPlanets := [], movedFleets := [],
    newFleets := [] }

/-- `Room.assignOwner`: the first of PLAYER1..PLAYER4 not currently
held by any member, else NEUTRAL. -/
def Room.assignOwner (r : Room) : Owner :=
  let used := r.players.map Prod.snd
  if Owner.PLAYER1 ∉ used then Owner.PLAYER1
  else if Owner.PLAYER2 ∉ used then Owner.PLAYER2
  else if Owner.PLAYER3 ∉ used then Owner.PLAYER3
  else if Owner.PLAYER4 ∉ used then Owner.PLAYER4
  else Owner.NEUTRAL

/-- `Room.join`: add the socket to `clients`, compute a seat from the
current seat map, store it, and return it (the `Welcome` send is I/O). -/
def Room.join (r : Room) (ws : ℕ) : Room × Owner :=
  let owner := Room.assignOwner { r with clients := setInsert r.clients ws }
  ({ r with clients := setInsert r.clients ws,
            players := mapSet r.players ws owner }, owner)

/-- `Room.leave`: drop the socket from membership and seat map. -/
def Room.leave (r : Room) (ws : ℕ) : Room :=
  { r with clients := r.clients.filter (fun c => c ≠ ws),
           players := r.players.filter (fun e => e.1 ≠ ws) }

/-- `Room.issueOrdersFrom`: silently no-op for unknown or NEUTRAL
seats; otherwise forward to the simulation and stage the created
fleets, the source ids and the target id into the accumulator. -/
def Room.issueOrdersFrom (r : Room) (ws : ℕ) (fromIds : List ℕ)
    (targetId : ℕ) (pct : ℚ) (dir : ℚ → ℚ → ℚ × ℚ) : Room :=
  match r.players.lookup ws with
  | none => r
  | some o =>
    if o = Owner.NEUTRAL then r
    else
      let res := r.sim.issueOrders o fromIds targetId pct dir
      { r with sim := res.1,
               newFleets := r.newFleets ++ res.2,
               changedPlanets :=
                 setInsert (fromIds.foldl setInsert r.changedPlanets) targetId }

/-- Construction of the per-planet delta list: the source evaluates
`this.sim.planets[id].owner` for every staged id, so a staged id with
no planet at that position is a thrown TypeError, modelled as `none`. -/
def deltaPlanets : List ℕ → List Planet → Option (List PlanetDelta)
  | [], _ => some []
  | i :: rest, ps =>
    match ps[i]? with
    | none => none
    | some p =>
      match deltaPlanets rest ps with
      | none => none
      | some l => some ({ id := i, owner := p.owner, ships := roundQ p.ships } :: l)

/-- `Room.tick`: one simulation step, stage the periodic planet refresh
(every planet id when the new tick counter is divisible by 4) and all
surviving fleet positions, then broadcast and clear the accumulator when
the throttle gate `now - lastDeltaSent ≥ 1000 / deltaHz` opens.  `none`
models the TypeError thrown while building the planet deltas. -/
def Room.tick (r : Room) (dt nowMs : ℚ) : Option (Room × Option Delta) :=
  let stepRes := r.sim.step dt
  let sim' := stepRes.1
  let changed :=
    if sim'.tick % 4 = 0 then
      sim'.planets.foldl (fun acc p => setInsert acc p.id) r.changedPlanets
    else r.changedPlanets
  let moved := sim'.fleets.foldl (fun acc f => mapSet acc f.id (f.x, f.y))
    r.movedFleets
  if 1000 / sim'.cfg.deltaHz ≤ nowMs - r.lastDeltaSent then
    match deltaPlanets changed sim'.planets with
    | none => none
    | some pl =>
      some ({ r with sim := sim', lastDeltaSent := nowMs,
                     changedPlanets := [], movedFleets := [], newFleets := [] },
            some { tick := sim'.tick, planets := pl, fleets := moved,
                   remove_fleets := stepRes.2, new_fleets := r.newFleets })
  else
    some ({ r with sim := sim', changedPlanets := changed,
                   movedFleets := moved }, none)

/-- The shared default configuration of the session manager. -/
def defaultCfg : SimConfig :=
  { width := 1600, height := 900, seed := 13371337, planetCount := 24,
    minR := 18, maxR := 34, fleetSpeed := 120, tickRate := 30,
    deltaHz := 15, numPlayers := 2 }

/-
Reachability: the two mutating entry points of the simulation engine,
as a sequence of operations applied to a generated initial state.
-/

/-- One mutating call into the simulation engine. -/
inductive Op where
  | order (owner : Owner) (fromIds : List ℕ) (targetId : ℕ) (pct : ℚ)
      (dir : ℚ → ℚ → ℚ × ℚ)
  | advance (dt : ℚ)

/-- Apply one operation, discarding the return value. -/
def applyOp (s : SimState) : Op → SimState
  | Op.order o ids t pct dir => (s.issueOrders o ids t pct dir).1
  | Op.advance dt => (s.step dt).1

/-- Apply a call sequence left to right. -/
def applyOps (s : SimState) (ops : List Op) : SimState :=
  ops.foldl applyOp s

/-- Every `step` call of the sequence has a nonnegative time delta (the
server always passes the fixed `dt = 1 / tickRate`). -/
def OpsValid (ops : List Op) : Prop :=
  ∀ op ∈ ops, match op with
    | Op.advance dt => 0 ≤ dt
    | _ => True

/-- The ship-count invariant: planet ship counts and production rates
are nonnegative, and every live fleet carries at least one ship. -/
def ShipsInv (s : SimState) : Prop :=
  (∀ p ∈ s.planets, 0 ≤ p.ships ∧ 0 ≤ p.production) ∧
  (∀ f ∈ s.fleets, 1 ≤ f.ships)

/-
Concrete states used to instantiate the theorems below.
-/

/-- Placeholder direction function (the theorems hold for every `dir`). -/
def dir0 : ℚ → ℚ → ℚ × ℚ := fun _ _ => (1, 0)

/-- A defending planet: 50 ships, held by PLAYER2, no production. -/
def planetW : Planet :=
  { id := 0, x := 0, y := 0, r := 10, owner := Owner.PLAYER2,
    ships := 50, production := 0 }

/-- A hostile fleet of 50 ships sitting on the defender. -/
def fleetW : Fleet :=
  { id := 7, owner := Owner.PLAYER1, ships := 50, x := 0, y := 0,
    vx := 0, vy := 0, fromId := 1, toId := 0 }

/-- Attacker's source planet: 41 ships, held by PLAYER1. -/
def sourceW : Planet :=
  { id := 1, x := 200, y := 0, r := 12, owner := Owner.PLAYER1,
    ships := 41, production := 0 }

/-- Simulation state with the defender, the attacker's source and the
in-flight hostile fleet. -/
def simW : SimState :=
  { cfg := defaultCfg, tick := 0, planets := [planetW, sourceW],
    fleets := [fleetW], nextFleetId := 8 }

/-- The same simulation with no fleet in flight. -/
def simW0 : SimState :=
  { cfg := defaultCfg, tick := 0, planets := [planetW, sourceW],
    fleets := [], nextFleetId := 8 }

/-- A fleet far away from its destination (survives the next step). -/
def farFleetW : Fleet :=
  { id := 9, owner := Owner.PLAYER1, ships := 5, x := 500, y := 500,
    vx := 1, vy := 0, fromId := 1, toId := 0 }

/-- Simulation state with only the far-away fleet in flight. -/
def simC10 : SimState :=
  { cfg := defaultCfg, tick := 0, planets := [planetW, sourceW],
    fleets := [farFleetW], nextFleetId := 10 }

/-- Fresh room over the fleetless two-planet state. -/
def roomW : Room := mkRoom 1 simW0

/-- Room state after the first (broadcasting) tick at t = 100. -/
def roomW1 : Room :=
  { roomW with
      sim := { cfg := defaultCfg, tick := 1, planets := [planetW, sourceW],
               fleets := [], nextFleetId := 8 },
      lastDeltaSent := 100 }

/-- Room state after the second (throttled) tick at t = 150. -/
def roomW2 : Room :=
  { roomW1 with
      sim := { cfg := defaultCfg, tick := 2, planets := [planetW, sourceW],
               fleets := [], nextFleetId := 8 } }

/-- The delta broadcast by the first tick. -/
def deltaW1 : Delta :=
  { tick := 1, planets := [], fleets := [], remove_fleets := [],
    new_fleets := [] }

/-- Room after one member joined (connection 0, seated PLAYER1). -/
def roomJ1 : Room := (roomW.join 0).1

/-- Room after two distinct members joined. -/
def roomJ2 : Room := (roomJ1.join 1).1

/-- Room after three distinct members joined. -/
def roomJ3 : Room := (roomJ2.join 2).1

/-- Room after four distinct members joined. -/
def roomJ4 : Room := (roomJ3.join 3).1

/-- A planet owned by PLAYER1 with 5 ships, no production. -/
def planetC4 : Planet :=
  { id := 0, x := 0, y := 0, r := 10, owner := Owner.PLAYER1,
    ships := 5, production := 0 }

/-- A friendly reinforcement fleet of 3 ships already on the planet. -/
def fleetC4 : Fleet :=
  { id := 1, owner := Owner.PLAYER1, ships := 3, x := 0, y := 0,
    vx := 0, vy := 0, fromId := 0, toId := 0 }

/-- Simulation in which fleet 1 resolves on the very next step. -/
def simC4 : SimState :=
  { cfg := defaultCfg, tick := 0, planets := [planetC4],
    fleets := [fleetC4], nextFleetId := 2 }

/-- Fresh room over `simC4`. -/
def roomC4 : Room := mkRoom 1 simC4

/-- `simC4` after the step that resolved fleet 1. -/
def simC4a : SimState :=
  { cfg := defaultCfg, tick := 1, planets := [{ planetC4 with ships := 8 }],
    fleets := [], nextFleetId := 2 }

/-- `roomC4` after its first tick (throttled: no broadcast). -/
def roomC4a : Room := { roomC4 with sim := simC4a }

/-- `roomC4a` after its second tick (broadcasting). -/
def roomC4b : Room :=
  { roomC4a with sim := { simC4a with tick := 2 }, lastDeltaSent := 100 }

/-- The delta broadcast by the second tick of `roomC4`. -/
def deltaC4 : Delta :=
  { tick := 2, planets := [], fleets := [], remove_fleets := [],
    new_fleets := [] }

/-- A degenerate configuration: `minR = maxR = 18` and
`width = height = 164 = 2 * (padding + r)`, so every candidate planet
is sampled at exactly (82, 82) whatever the random stream says, and
after the first acceptance no further candidate can ever clear the
16-unit margin. -/
def cfgC5 : SimConfig :=
  { width := 164, height := 164, seed := 0, planetCount := 2,
    minR := 18, maxR := 18, fleetSpeed := 120, tickRate := 30,
    deltaHz := 15, numPlayers := 2 }

-- Theorems

@[simp] theorem moveFleet_id (dt : ℚ) (f : Fleet) : (moveFleet dt f).id = f.id := rfl
@[simp] theorem moveFleet_owner (dt : ℚ) (f : Fleet) : (moveFleet dt f).owner = f.owner := rfl
@[simp] theorem moveFleet_ships (dt : ℚ) (f : Fleet) : (moveFleet dt f).ships = f.ships := rfl
@[simp] theorem moveFleet_x (dt : ℚ) (f : Fleet) : (moveFleet dt f).x = f.x + f.vx * dt := rfl
@[simp] theorem moveFleet_y (dt : ℚ) (f : Fleet) : (moveFleet dt f).y = f.y + f.vy * dt := rfl
@[simp] theorem moveFleet_vx (dt : ℚ) (f : Fleet) : (moveFleet dt f).vx = f.vx := rfl
@[simp] theorem moveFleet_vy (dt : ℚ) (f : Fleet) : (moveFleet dt f).vy = f.vy := rfl
@[simp] theorem moveFleet_fromId (dt : ℚ) (f : Fleet) : (moveFleet dt f).fromId = f.fromId := rfl
@[simp] theorem moveFleet_toId (dt : ℚ) (f : Fleet) : (moveFleet dt f).toId = f.toId := rfl

/-- Evaluation of one `step` call on a state whose only fleet arrives. -/
theorem step_single_arrival (s : SimState) (dt : ℚ) (f : Fleet) (tgt : Planet)
    (hf : s.fleets = [f])
    (ht : (accrue dt s.planets)[f.toId]? = some tgt)
    (harr : distLe (f.x + f.vx * dt) (f.y + f.vy * dt) tgt.x tgt.y tgt.r) :
    s.step dt =
      ({ s with planets := (accrue dt s.planets).set f.toId
                  (resolveCombat tgt (moveFleet dt f)),
                fleets := [], tick := s.tick + 1 }, [f.id]) := by
  unfold SimState.step
  rw [hf]
  simp only [List.foldl_cons, List.foldl_nil, stepFleet, moveFleet_toId,
    moveFleet_x, moveFleet_y, moveFleet_id]
  rw [ht]
  simp only [if_pos harr, List.nil_append]

/-- C1 (combat resolution exactness): when the single in-flight fleet
reaches its destination (distance to the center at most the radius),
with the defender holding `d = tgt.ships` ships at resolution time and
the fleet carrying `f.ships`, an opposing-owner arrival leaves the
owner unchanged with `d - f.ships` ships when `f.ships ≤ d`, and flips
ownership to the attacker with `f.ships - d` ships when `f.ships > d`;
a same-owner arrival adds `f.ships`; the fleet is removed the instant
it resolves. -/
theorem combat_resolution_exact (s : SimState) (dt : ℚ) (f : Fleet) (tgt : Planet)
    (hf : s.fleets = [f])
    (ht : (accrue dt s.planets)[f.toId]? = some tgt)
    (harr : distLe (f.x + f.vx * dt) (f.y + f.vy * dt) tgt.x tgt.y tgt.r) :
    (s.step dt).1.planets = (accrue dt s.planets).set f.toId
        (resolveCombat tgt (moveFleet dt f)) ∧
    (s.step dt).1.fleets = [] ∧
    (s.step dt).2 = [f.id] ∧
    (f.owner ≠ tgt.owner → f.ships ≤ tgt.ships →
      (resolveCombat tgt (moveFleet dt f)).owner = tgt.owner ∧
      (resolveCombat tgt (moveFleet dt f)).ships = tgt.ships - f.ships) ∧
    (f.owner ≠ tgt.owner → tgt.ships < f.ships →
      (resolveCombat tgt (moveFleet dt f)).owner = f.owner ∧
      (resolveCombat tgt (moveFleet dt f)).ships = f.ships - tgt.ships) ∧
    (f.owner = tgt.owner →
      (resolveCombat tgt (moveFleet dt f)).ships = tgt.ships + f.ships) := by
  have hstep := step_single_arrival s dt f tgt hf ht harr
  refine ⟨by rw [hstep], by rw [hstep], by rw [hstep], ?_, ?_, ?_⟩
  · intro hne hle
    have hrem : ¬ (tgt.ships - f.ships < 0) := by
      simp only [not_lt, sub_nonneg]; exact hle
    simp [resolveCombat, if_neg (by simpa using hne), hrem]
  · intro hne hlt
    have hrem : tgt.ships - f.ships < 0 := by
      simpa [sub_neg] using hlt
    simp [resolveCombat, if_neg (by simpa using hne), hrem,
      abs_of_neg hrem]
  · intro heq
    simp [resolveCombat, heq]

/-- Witness: the spec's own numbers — defender with 50 ships, hostile
fleet of 50 — end at ships = 0 with the owner unchanged, and the fleet
is removed by the step that resolves it. -/
theorem combat_resolution_exact_witness :
    (resolveCombat planetW (moveFleet 1 fleetW)).owner = Owner.PLAYER2 ∧
    (resolveCombat planetW (moveFleet 1 fleetW)).ships = 0 ∧
    (simW.step 1).1.fleets = [] ∧ (simW.step 1).2 = [7] := by
  have h := combat_resolution_exact simW 1 fleetW planetW rfl
    (by simp [simW, accrue, planetW, sourceW, fleetW])
    (by norm_num [distLe, dist2, fleetW, planetW])
  have hne : fleetW.owner ≠ planetW.owner := by decide
  have hle : fleetW.ships ≤ planetW.ships := by norm_num [fleetW, planetW]
  refine ⟨(h.2.2.2.1 hne hle).1, ?_, h.2.1, h.2.2.1⟩
  rw [(h.2.2.2.1 hne hle).2]
  norm_num [planetW, fleetW]

/-- Debiting through the first id match updates exactly the planet
`find` returns. -/
theorem findPlanet_debitFirst_self (ps : List Planet) (pid : ℕ) (amt : ℚ)
    (p : Planet) (h : findPlanet ps pid = some p) :
    findPlanet (debitFirst ps pid amt) pid =
      some { p with ships := p.ships - amt } := by
  induction ps with
  | nil => simp [findPlanet] at h
  | cons q rest ih =>
    by_cases hq : q.id = pid
    · rw [findPlanet, List.find?_cons_of_pos _ (by simpa using hq)] at h
      obtain rfl : q = p := by simpa using h
      rw [debitFirst, if_pos (by simpa using hq), findPlanet,
        List.find?_cons_of_pos _ (by simpa using hq)]
    · rw [findPlanet, List.find?_cons_of_neg _ (by simpa using hq)] at h
      rw [debitFirst, if_neg (by simpa using hq), findPlanet,
        List.find?_cons_of_neg _ (by simpa using hq)]
      exact ih h

/-- Debiting one planet leaves every lookup of a different id intact. -/
theorem findPlanet_debitFirst_other (ps : List Planet) (pid pid' : ℕ)
    (amt : ℚ) (hne : pid' ≠ pid) :
    findPlanet (debitFirst ps pid amt) pid' = findPlanet ps pid' := by
  induction ps with
  | nil => simp [debitFirst]
  | cons q rest ih =>
    by_cases hq : q.id = pid
    · have hq' : ¬ q.id = pid' := by rw [hq]; exact fun h => hne h.symm
      rw [debitFirst, if_pos (by simpa using hq), findPlanet,
        List.find?_cons_of_neg _ (by simpa using hq'), findPlanet,
        List.find?_cons_of_neg _ (by simpa using hq')]
    · by_cases hq' : q.id = pid'
      · rw [debitFirst, if_neg (by simpa using hq), findPlanet,
          List.find?_cons_of_pos _ (by simpa using hq'), findPlanet,
          List.find?_cons_of_pos _ (by simpa using hq')]
      · rw [debitFirst, if_neg (by simpa using hq), findPlanet,
          List.find?_cons_of_neg _ (by simpa using hq'), findPlanet,
          List.find?_cons_of_neg _ (by simpa using hq')]
        exact ih

/-- C2 (order conservation and fraction clamping): an order from an
owned source planet `p` with a live target debits exactly
`⌊p.ships * min 1 pct⌋` from that planet (leaving every other planet
untouched) and creates exactly one fleet carrying exactly that amount;
any `pct ≥ 1` behaves as `pct = 1`; and a nonpositive fraction, a
nonpositive computed send amount, or a source equal to the target
changes nothing and creates nothing. -/
theorem order_conservation_clamp (s : SimState) (owner : Owner)
    (fromIds : List ℕ) (i targetId : ℕ) (pct : ℚ) (dir : ℚ → ℚ → ℚ × ℚ)
    (p target : Planet) :
    (findPlanet s.planets targetId = some target →
     findPlanet s.planets i = some p →
     p.owner = owner → p.id ≠ targetId → 0 < pct →
     0 < ⌊p.ships * min 1 pct⌋ →
     (s.issueOrders owner [i] targetId pct dir =
       ({ s with
            planets := debitFirst s.planets i ((⌊p.ships * min 1 pct⌋ : ℤ) : ℚ),
            nextFleetId := s.nextFleetId + 1,
            fleets := s.fleets ++
              [{ id := s.nextFleetId, owner := owner,
                 ships := ((⌊p.ships * min 1 pct⌋ : ℤ) : ℚ),
                 x := p.x + (dir (target.y - p.y) (target.x - p.x)).1 * (p.r + 6),
                 y := p.y + (dir (target.y - p.y) (target.x - p.x)).2 * (p.r + 6),
                 vx := (dir (target.y - p.y) (target.x - p.x)).1 * s.cfg.fleetSpeed,
                 vy := (dir (target.y - p.y) (target.x - p.x)).2 * s.cfg.fleetSpeed,
                 fromId := p.id, toId := target.id }] },
        [{ id := s.nextFleetId, owner := owner,
           ships := ((⌊p.ships * min 1 pct⌋ : ℤ) : ℚ),
           x := p.x + (dir (target.y - p.y) (target.x - p.x)).1 * (p.r + 6),
           y := p.y + (dir (target.y - p.y) (target.x - p.x)).2 * (p.r + 6),
           vx := (dir (target.y - p.y) (target.x - p.x)).1 * s.cfg.fleetSpeed,
           vy := (dir (target.y - p.y) (target.x - p.x)).2 * s.cfg.fleetSpeed,
           fromId := p.id, toId := target.id }])) ∧
     findPlanet (debitFirst s.planets i ((⌊p.ships * min 1 pct⌋ : ℤ) : ℚ)) i =
       some { p with ships := p.ships - ((⌊p.ships * min 1 pct⌋ : ℤ) : ℚ) } ∧
     (∀ j, j ≠ i →
       findPlanet (debitFirst s.planets i ((⌊p.ships * min 1 pct⌋ : ℤ) : ℚ)) j =
         findPlanet s.planets j)) ∧
    (1 ≤ pct →
      s.issueOrders owner fromIds targetId pct dir =
        s.issueOrders owner fromIds targetId 1 dir) ∧
    (pct ≤ 0 → s.issueOrders owner fromIds targetId pct dir = (s, [])) ∧
    (0 < pct → findPlanet s.planets targetId = some target →
      findPlanet s.planets i = some p → p.id = targetId →
      s.issueOrders owner [i] targetId pct dir = (s, [])) ∧
    (0 < pct → findPlanet s.planets targetId = some target →
      findPlanet s.planets i = some p → ⌊p.ships * min 1 pct⌋ ≤ 0 →
      s.issueOrders owner [i] targetId pct dir = (s, [])) := by
  refine ⟨?_, ?_, ?_, ?_, ?_⟩
  · intro htgt hfrom howner hid hpct hsend
    refine ⟨?_, findPlanet_debitFirst_self _ _ _ _ hfrom, fun j hj =>
      findPlanet_debitFirst_other _ _ _ _ hj⟩
    simp only [SimState.issueOrders, if_neg (not_le.mpr hpct), htgt,
      List.foldl_cons, List.foldl_nil, orderStep, hfrom]
    rw [if_neg (by simp [howner]), if_neg hid, if_neg (not_le.mpr hsend)]
    simp
  · intro hge
    have h1 : min 1 pct = 1 := min_eq_left hge
    have h2 : ¬ pct ≤ 0 := not_le.mpr (lt_of_lt_of_le one_pos hge)
    simp only [SimState.issueOrders, if_neg h2,
      if_neg (not_le.mpr (one_pos : (0 : ℚ) < 1))]
    cases htg : findPlanet s.planets targetId with
    | none => rfl
    | some target =>
      have he : orderStep s.cfg owner targetId pct dir target =
          orderStep s.cfg owner targetId 1 dir target := by
        funext acc pid
        simp only [orderStep, h1, min_self]
      dsimp only
      rw [he]
  · intro hle
    simp [SimState.issueOrders, if_pos hle]
  · intro hpct htgt hfrom hid
    simp only [SimState.issueOrders, if_neg (not_le.mpr hpct), htgt,
      List.foldl_cons, List.foldl_nil, orderStep, hfrom]
    rw [if_pos hid, ite_self, List.append_nil]
  · intro hpct htgt hfrom hsend
    simp only [SimState.issueOrders, if_neg (not_le.mpr hpct), htgt,
      List.foldl_cons, List.foldl_nil, orderStep, hfrom]
    rw [if_pos hsend, ite_self, ite_self, List.append_nil]

/-- Witness: a half-fraction order from the 41-ship source planet debits
exactly ⌊41 * 1/2⌋ = 20 ships, creates exactly one fleet of 20 ships,
and leaves the target planet's entry untouched. -/
theorem order_conservation_clamp_witness :
    ((simW0.issueOrders Owner.PLAYER1 [1] 0 (1 / 2) dir0).2.map Fleet.ships =
      [(20 : ℚ)]) ∧
    (findPlanet (simW0.issueOrders Owner.PLAYER1 [1] 0 (1 / 2) dir0).1.planets 1 =
      some { sourceW with ships := 21 }) ∧
    (findPlanet (simW0.issueOrders Owner.PLAYER1 [1] 0 (1 / 2) dir0).1.planets 0 =
      some planetW) := by
  have hs20 : (⌊sourceW.ships * min 1 ((1 : ℚ) / 2)⌋ : ℤ) = 20 := by
    rw [min_eq_right (by norm_num : (1 : ℚ) / 2 ≤ 1)]
    norm_num [sourceW]
  have h := (order_conservation_clamp simW0 Owner.PLAYER1 [1] 1 0 (1 / 2) dir0
    sourceW planetW).1 rfl rfl rfl (by decide) (by norm_num) (by rw [hs20]; norm_num)
  refine ⟨?_, ?_, ?_⟩
  · rw [h.1]
    simp
    rw [min_eq_right (by norm_num : (2 : ℚ)⁻¹ ≤ 1)]
    norm_num [sourceW]
  · have h2 := h.2.1
    rw [hs20] at h2
    rw [h.1, hs20, h2]
    norm_num [sourceW]
  · have h3 := h.2.2 0 (by decide)
    rw [hs20] at h3
    rw [h.1, hs20, h3]
    rfl

/-- The surviving-fleet component of one fleet-loop iteration either
stays as it is (the fleet resolved) or gains exactly the moved fleet. -/
theorem stepFleet_live_cases (dt : ℚ) (acc : List Planet × List Fleet × List ℕ)
    (f : Fleet) :
    (stepFleet dt acc f).2.1 = acc.2.1 ∨
    (stepFleet dt acc f).2.1 = acc.2.1 ++ [moveFleet dt f] := by
  simp only [stepFleet, moveFleet_toId, moveFleet_x, moveFleet_y, moveFleet_id]
  cases h : acc.1[f.toId]? with
  | none => right; rfl
  | some tgt =>
    by_cases harr : distLe (f.x + f.vx * dt) (f.y + f.vy * dt) tgt.x tgt.y tgt.r
    · left; dsimp only; rw [if_pos harr]
    · right; dsimp only; rw [if_neg harr]

/-- Any fleet in the surviving component of the fleet loop was already
in the accumulator or is the moved image of a processed fleet. -/
theorem foldl_stepFleet_live (dt : ℚ) :
    ∀ (fs : List Fleet) (acc : List Planet × List Fleet × List ℕ) (g : Fleet),
      g ∈ (fs.foldl (stepFleet dt) acc).2.1 →
      g ∈ acc.2.1 ∨ ∃ f ∈ fs, g = moveFleet dt f := by
  intro fs
  induction fs with
  | nil => intro acc g hg; exact Or.inl hg
  | cons f rest ih =>
    intro acc g hg
    rw [List.foldl_cons] at hg
    rcases ih (stepFleet dt acc f) g hg with hin | ⟨f', hf', rfl⟩
    · rcases stepFleet_live_cases dt acc f with hc | hc
      · rw [hc] at hin; exact Or.inl hin
      · rw [hc] at hin
        rcases List.mem_append.mp hin with h | h
        · exact Or.inl h
        · exact Or.inr ⟨f, List.mem_cons_self f rest, List.mem_singleton.mp h⟩
    · exact Or.inr ⟨f', List.mem_cons_of_mem f hf', rfl⟩

/-- C10 (no in-flight attrition): every fleet that survives a `step`
call is the moved image of a fleet of the previous state — its ship
count, owner, velocity, origin and destination ids are exactly
unchanged, and only its position advances, by exactly `velocity * dt`. -/
theorem step_frame_fleets (s : SimState) (dt : ℚ) :
    ∀ g ∈ (s.step dt).1.fleets, ∃ f ∈ s.fleets,
      g.id = f.id ∧ g.owner = f.owner ∧ g.ships = f.ships ∧
      g.vx = f.vx ∧ g.vy = f.vy ∧ g.fromId = f.fromId ∧ g.toId = f.toId ∧
      g.x = f.x + f.vx * dt ∧ g.y = f.y + f.vy * dt := by
  intro g hg
  have hm : g ∈ ([] : List Fleet) ∨ ∃ f ∈ s.fleets, g = moveFleet dt f :=
    foldl_stepFleet_live dt s.fleets (accrue dt s.planets, [], []) g hg
  rcases hm with h | ⟨f, hf, rfl⟩
  · simp at h
  · exact ⟨f, hf, rfl, rfl, rfl, rfl, rfl, rfl, rfl, rfl, rfl⟩

/-- Witness: the far-away fleet survives the step, and only its
position changed, exactly by `velocity * dt`. -/
theorem step_frame_fleets_witness :
    ∃ f ∈ simC10.fleets,
      (moveFleet 1 farFleetW).id = f.id ∧
      (moveFleet 1 farFleetW).owner = f.owner ∧
      (moveFleet 1 farFleetW).ships = f.ships ∧
      (moveFleet 1 farFleetW).vx = f.vx ∧
      (moveFleet 1 farFleetW).vy = f.vy ∧
      (moveFleet 1 farFleetW).fromId = f.fromId ∧
      (moveFleet 1 farFleetW).toId = f.toId ∧
      (moveFleet 1 farFleetW).x = f.x + f.vx * 1 ∧
      (moveFleet 1 farFleetW).y = f.y + f.vy * 1 := by
  have hmem : moveFleet 1 farFleetW ∈ (simC10.step 1).1.fleets := by
    have hfl : (simC10.step 1).1.fleets = [moveFleet 1 farFleetW] := by
      simp only [SimState.step, simC10, List.foldl_cons, List.foldl_nil,
        stepFleet, moveFleet_toId, moveFleet_x, moveFleet_y]
      norm_num [accrue, planetW, sourceW, farFleetW, distLe, dist2]
    rw [hfl]
    exact List.mem_singleton.mpr rfl
  exact step_frame_fleets simC10 1 (moveFleet 1 farFleetW) hmem

/-- C8 (delta throttling): whatever the last-broadcast timestamp, when
two consecutive `tick` calls on a room with `deltaHz = 15` carry
wall-clock timestamps less than `1000 / 15` ms apart, at most one of
the two calls broadcasts a Delta. -/
theorem delta_throttling (r : Room) (dt1 dt2 t1 t2 : ℚ) (r1 r2 : Room)
    (d1 d2 : Option Delta)
    (hhz : r.sim.cfg.deltaHz = 15)
    (hlt : t2 - t1 < 1000 / 15)
    (h1 : r.tick dt1 t1 = some (r1, d1))
    (h2 : r1.tick dt2 t2 = some (r2, d2)) :
    d1 = none ∨ d2 = none := by
  simp only [Room.tick] at h1
  by_cases hg1 : 1000 / ((r.sim.step dt1).1.cfg.deltaHz) ≤ t1 - r.lastDeltaSent
  · rw [if_pos hg1] at h1
    cases ch : deltaPlanets
        (if (r.sim.step dt1).1.tick % 4 = 0 then
          (r.sim.step dt1).1.planets.foldl (fun acc p => setInsert acc p.id)
            r.changedPlanets
        else r.changedPlanets) (r.sim.step dt1).1.planets with
    | none => rw [ch] at h1; simp at h1
    | some pl =>
      rw [ch] at h1
      simp only [Option.some.injEq, Prod.mk.injEq] at h1
      obtain ⟨hr1, hd1⟩ := h1
      refine Or.inr ?_
      subst hr1
      simp only [Room.tick] at h2
      rw [if_neg (by
        show ¬ (1000 / _ ≤ t2 - t1)
        have hc : ((((r.sim.step dt1).1).step dt2).1).cfg.deltaHz =
            r.sim.cfg.deltaHz := rfl
        rw [hc, hhz]
        exact not_le.mpr hlt)] at h2
      simp only [Option.some.injEq, Prod.mk.injEq] at h2
      exact h2.2.symm
  · rw [if_neg hg1] at h1
    simp only [Option.some.injEq, Prod.mk.injEq] at h1
    exact Or.inl h1.2.symm

/-- Witness: a room with `deltaHz = 15` ticked at t = 100 then t = 150
(50 ms apart) broadcasts on the first call only. -/
theorem delta_throttling_witness :
    Room.tick roomW 1 100 = some (roomW1, some deltaW1) ∧
    Room.tick roomW1 1 150 = some (roomW2, none) ∧
    (some deltaW1 = none ∨ (none : Option Delta) = none) := by
  have hstep1 : simW0.step 1 = ({ simW0 with tick := 1 }, ([] : List ℕ)) := by
    simp only [SimState.step, List.foldl_nil]
    norm_num [simW0, accrue, planetW, sourceW]
  have hstep2 : roomW1.sim.step 1 = ({ simW0 with tick := 2 }, ([] : List ℕ)) := by
    simp only [SimState.step, List.foldl_nil]
    norm_num [roomW1, roomW, mkRoom, simW0, accrue, planetW, sourceW]
  have h1 : Room.tick roomW 1 100 = some (roomW1, some deltaW1) := by
    simp only [Room.tick, roomW, mkRoom]
    rw [hstep1]
    norm_num [simW0, defaultCfg, deltaPlanets, roomW1, roomW, mkRoom, deltaW1]
  have h2 : Room.tick roomW1 1 150 = some (roomW2, none) := by
    simp only [Room.tick]
    rw [hstep2]
    norm_num [simW0, defaultCfg, roomW2, roomW1, roomW, mkRoom]
  exact ⟨h1, h2, delta_throttling roomW 1 1 100 150 roomW1 roomW2
    (some deltaW1) none rfl (by norm_num) h1 h2⟩

/-- C3 (code bug): an order targeting the nonexistent planet id 2 is a
no-op on the simulation, but its target id is still staged into
`changedPlanets`, and the next broadcasting tick dereferences
`planets[2]`, which does not exist — the delta construction fails (a
thrown TypeError in the source), so the tick does not complete
normally. -/
theorem nonexistent_target_tick_crash :
    (Room.issueOrdersFrom roomJ1 0 [] 2 (1 / 2) dir0).sim = roomW.sim ∧
    Room.tick (Room.issueOrdersFrom roomJ1 0 [] 2 (1 / 2) dir0) 1 100 = none := by
  have hj : roomJ1 = { roomW with clients := [0], players := [(0, Owner.PLAYER1)] } := by
    simp [roomJ1, Room.join, Room.assignOwner, setInsert, mapSet, roomW, mkRoom]
  have hio : Room.issueOrdersFrom roomJ1 0 [] 2 (1 / 2) dir0
      = { roomJ1 with changedPlanets := [2] } := by
    rw [hj]
    simp only [Room.issueOrdersFrom, List.lookup, beq_self_eq_true]
    simp only [SimState.issueOrders]
    rw [if_neg (by norm_num : ¬ ((1 : ℚ) / 2 ≤ 0))]
    simp [roomW, mkRoom, simW0, findPlanet, planetW, sourceW, setInsert]
  have hstep : simW0.step 1 = ({ simW0 with tick := 1 }, ([] : List ℕ)) := by
    simp only [SimState.step, List.foldl_nil]
    norm_num [simW0, accrue, planetW, sourceW]
  constructor
  · rw [hio, hj]
  · rw [hio, hj]
    simp only [Room.tick, roomW, mkRoom]
    rw [hstep]
    rw [if_pos (by norm_num [simW0, defaultCfg])]
    simp [deltaPlanets, simW0, planetW, sourceW]

/-- C4 (code bug): fleet 1 resolves during a tick whose broadcast gate
is closed, and the Delta sent by the next (broadcasting) tick carries
an empty `remove_fleets` list — the resolved id was dropped, not
accumulated until the broadcast. -/
theorem removed_fleets_dropped :
    (simC4.step 1).2 = [1] ∧
    Room.tick roomC4 1 10 = some (roomC4a, none) ∧
    Room.tick roomC4a 1 100 = some (roomC4b, some deltaC4) ∧
    deltaC4.remove_fleets = [] := by
  have hstep1 : simC4.step 1 = (simC4a, [1]) := by
    simp only [SimState.step, simC4, List.foldl_cons, List.foldl_nil, stepFleet,
      moveFleet_toId, moveFleet_x, moveFleet_y, moveFleet_id]
    norm_num [accrue, planetC4, fleetC4, distLe, dist2, resolveCombat,
      moveFleet, simC4a]
  have hstep2 : simC4a.step 1 = ({ simC4a with tick := 2 }, ([] : List ℕ)) := by
    simp only [SimState.step, List.foldl_nil]
    norm_num [simC4a, accrue, planetC4]
  refine ⟨by rw [hstep1], ?_, ?_, rfl⟩
  · simp only [Room.tick, roomC4, mkRoom]
    rw [hstep1]
    rw [if_neg (by norm_num [simC4a, defaultCfg])]
    simp [simC4a, roomC4a, roomC4, mkRoom]
  · simp only [Room.tick, roomC4a, roomC4, mkRoom]
    rw [hstep2]
    rw [if_pos (by norm_num [simC4a, defaultCfg])]
    simp [deltaPlanets, simC4a, roomC4b, roomC4a, roomC4, mkRoom, deltaC4]

/-- C6 counterexample: with the shared default configuration
(`numPlayers = 2`), the third distinct connection to join is seated
PLAYER3, not NEUTRAL — seat assignment ignores `numPlayers`. -/
theorem third_join_not_neutral :
    (roomJ2.join 2).2 = Owner.PLAYER3 ∧ Owner.PLAYER3 ≠ Owner.NEUTRAL ∧
    defaultCfg.numPlayers = 2 :=
  ⟨rfl, by decide, rfl⟩

/-- C6 as amended: seats are assigned first-come as PLAYER1..PLAYER4
regardless of the configured `numPlayers`; only the fifth and later
concurrent connections are seated NEUTRAL. -/
theorem seat_overflow_after_four :
    (roomW.join 0).2 = Owner.PLAYER1 ∧
    (roomJ1.join 1).2 = Owner.PLAYER2 ∧
    (roomJ2.join 2).2 = Owner.PLAYER3 ∧
    (roomJ3.join 3).2 = Owner.PLAYER4 ∧
    (roomJ4.join 4).2 = Owner.NEUTRAL :=
  ⟨rfl, rfl, rfl, rfl, rfl⟩

/-- C7 counterexample: a second `join` of the same connection keeps a
single membership and seat-map entry, but reassigns the seat — the sole
participant, seated PLAYER1 by its first join, holds PLAYER2 after the
second join. -/
theorem rejoin_changes_seat :
    (roomW.join 0).2 = Owner.PLAYER1 ∧
    roomJ1.players = [(0, Owner.PLAYER1)] ∧
    (roomJ1.join 0).2 = Owner.PLAYER2 ∧
    (roomJ1.join 0).1.players = [(0, Owner.PLAYER2)] ∧
    Owner.PLAYER2 ≠ Owner.PLAYER1 :=
  ⟨rfl, rfl, rfl, rfl, by decide⟩

/-- Adding to the JS set an element already counted at most once leaves
exactly one copy. -/
theorem setInsert_count (l : List ℕ) (x : ℕ) (h : l.count x ≤ 1) :
    (setInsert l x).count x = 1 := by
  unfold setInsert
  by_cases hx : x ∈ l
  · rw [if_pos hx]
    have h1 : 0 < l.count x := List.count_pos_iff.mpr hx
    omega
  · rw [if_neg hx, List.count_append]
    have h0 : l.count x = 0 := List.count_eq_zero.mpr hx
    simp [h0]

/-- JS `Map.set` leaves exactly one entry under the written key when
the key was held by at most one entry before. -/
theorem mapSet_keys_count {α : Type} (l : List (ℕ × α)) (k : ℕ) (v : α)
    (h : (l.map Prod.fst).count k ≤ 1) :
    ((mapSet l k v).map Prod.fst).count k = 1 := by
  induction l with
  | nil => simp [mapSet]
  | cons e t ih =>
    obtain ⟨k', v'⟩ := e
    by_cases hk : k' = k
    · subst hk
      simp only [mapSet, eq_self_iff_true, if_true, List.map_cons,
        List.count_cons_self] at h ⊢
      omega
    · simp only [mapSet, if_neg hk, List.map_cons] at h ⊢
      rw [List.count_cons_of_ne (fun hkk => hk hkk.symm)] at h ⊢
      exact ih h

/-- C7 as amended: a second `join` of an already-connected participant
does not duplicate its membership or its seat-map entry — afterwards the
room holds exactly one clients entry and exactly one players entry for
that connection (though the seat stored there may have moved to the
next free one, as the counterexample shows). -/
theorem join_no_duplication (r : Room) (ws : ℕ)
    (hc : r.clients.count ws ≤ 1)
    (hp : (r.players.map Prod.fst).count ws ≤ 1) :
    (r.join ws).1.clients.count ws = 1 ∧
    ((r.join ws).1.players.map Prod.fst).count ws = 1 := by
  constructor
  · simp only [Room.join]
    exact setInsert_count _ _ hc
  · simp only [Room.join]
    exact mapSet_keys_count _ _ _ hp

/-- Witness: re-joining the sole member of a one-member room leaves one
membership entry and one seat entry. -/
theorem join_no_duplication_witness :
    (roomJ1.join 0).1.clients.count 0 = 1 ∧
    ((roomJ1.join 0).1.players.map Prod.fst).count 0 = 1 :=
  join_no_duplication roomJ1 0 (by decide) (by decide)

/-- Under `cfgC5` every candidate planet has position (82, 82) and
radius 18, whatever values the random stream yields. -/
theorem mkCandidate_cfgC5 (rand : ℕ → ℚ) (k idx : ℕ) :
    (mkCandidate cfgC5 rand k idx).x = 82 ∧
    (mkCandidate cfgC5 rand k idx).y = 82 ∧
    (mkCandidate cfgC5 rand k idx).r = 18 := by
  refine ⟨?_, ?_, ?_⟩ <;>
    · simp only [mkCandidate, cfgC5]
      ring_nf

/-- Once one planet sits at (82, 82) with radius 18, the placement loop
under `cfgC5` rejects every further candidate and never exits, for any
amount of fuel. -/
theorem initMapLoopF_stuck (rand : ℕ → ℚ) (p : Planet)
    (hx : p.x = 82) (hy : p.y = 82) (hr : p.r = 18) :
    ∀ (fuel k : ℕ), initMapLoopF cfgC5 rand fuel k [p] = ([p], false) := by
  intro fuel
  induction fuel with
  | zero => intro k; rfl
  | succ n ih =>
    intro k
    have hc := mkCandidate_cfgC5 rand k ([p].length)
    have hrej : placeStep cfgC5 rand k [p] = [p] := by
      simp only [placeStep]
      rw [if_neg]
      intro hall
      have hp := hall p (List.mem_singleton.mpr rfl)
      rw [distGt] at hp
      apply hp
      rw [hx, hy, hc.1, hc.2.1, hr, hc.2.2]
      norm_num [distLe, dist2]
    simp only [initMapLoopF]
    rw [if_pos (by norm_num [cfgC5] : ([p] : List Planet).length < cfgC5.planetCount)]
    rw [hrej]
    rw [if_neg (by norm_num : ¬ ([p] : List Planet).length > 2000)]
    exact ih (k + 1)

/-- C5 (code bug): under the degenerate configuration `cfgC5` the
placement loop never terminates — for every random stream and every
fuel bound the loop is still running when the fuel runs out, because the
`length > 2000` break counts accepted planets (stuck at one), not
attempts. -/
theorem placement_loop_nonterminating :
    ∀ (rand : ℕ → ℚ) (fuel : ℕ),
      (initMapLoopF cfgC5 rand fuel 0 []).2 = false := by
  intro rand fuel
  cases fuel with
  | zero => rfl
  | succ n =>
    have hc := mkCandidate_cfgC5 rand 0 0
    have hacc : placeStep cfgC5 rand 0 [] = [mkCandidate cfgC5 rand 0 0] := by
      simp [placeStep]
    simp only [initMapLoopF]
    rw [if_pos (by norm_num [cfgC5] : ([] : List Planet).length < cfgC5.planetCount)]
    rw [hacc]
    rw [if_neg (by norm_num : ¬ ([mkCandidate cfgC5 rand 0 0] : List Planet).length > 2000)]
    rw [initMapLoopF_stuck rand _ hc.1 hc.2.1 hc.2.2 n 1]

/-- Production accrual keeps ship counts and production rates
nonnegative when the time delta is nonnegative. -/
theorem accrue_nonneg (dt : ℚ) (hdt : 0 ≤ dt) (ps : List Planet)
    (h : ∀ p ∈ ps, 0 ≤ p.ships ∧ 0 ≤ p.production) :
    ∀ p ∈ accrue dt ps, 0 ≤ p.ships ∧ 0 ≤ p.production := by
  intro p hp
  rw [accrue] at hp
  obtain ⟨q, hq, rfl⟩ := List.mem_map.mp hp
  by_cases how : q.owner ≠ Owner.NEUTRAL
  · rw [if_pos how]
    exact ⟨add_nonneg (h q hq).1 (mul_nonneg (h q hq).2 hdt), (h q hq).2⟩
  · rw [if_neg how]
    exact h q hq

/-- Combat resolution keeps the planet's ship count and production
nonnegative for any arriving fleet of nonnegative size. -/
theorem resolveCombat_nonneg (tgt : Planet) (f : Fleet)
    (ht : 0 ≤ tgt.ships ∧ 0 ≤ tgt.production) (hf : 0 ≤ f.ships) :
    0 ≤ (resolveCombat tgt f).ships ∧ 0 ≤ (resolveCombat tgt f).production := by
  unfold resolveCombat
  by_cases he : f.owner = tgt.owner
  · rw [if_pos he]
    exact ⟨add_nonneg ht.1 hf, ht.2⟩
  · rw [if_neg he]
    dsimp only
    by_cases hlt : tgt.ships - f.ships < 0
    · rw [if_pos hlt]
      exact ⟨abs_nonneg _, ht.2⟩
    · rw [if_neg hlt]
      exact ⟨not_lt.mp hlt, ht.2⟩

/-- One fleet-loop iteration keeps every planet's ship count and
production nonnegative. -/
theorem stepFleet_planets_nonneg (dt : ℚ) (acc : List Planet × List Fleet × List ℕ)
    (f : Fleet) (hps : ∀ p ∈ acc.1, 0 ≤ p.ships ∧ 0 ≤ p.production)
    (hf : 0 ≤ f.ships) :
    ∀ p ∈ (stepFleet dt acc f).1, 0 ≤ p.ships ∧ 0 ≤ p.production := by
  simp only [stepFleet, moveFleet_toId, moveFleet_x, moveFleet_y]
  cases h : acc.1[f.toId]? with
  | none => exact hps
  | some tgt =>
    dsimp only
    by_cases harr : distLe (f.x + f.vx * dt) (f.y + f.vy * dt) tgt.x tgt.y tgt.r
    · rw [if_pos harr]
      intro p hp
      rcases List.mem_or_eq_of_mem_set hp with hmem | rfl
      · exact hps p hmem
      · exact resolveCombat_nonneg tgt (moveFleet dt f)
          (hps tgt (List.getElem?_mem h)) (by simpa using hf)
    · rw [if_neg harr]
      exact hps

/-- The whole fleet loop keeps every planet's ship count and production
nonnegative. -/
theorem foldl_stepFleet_planets_nonneg (dt : ℚ) :
    ∀ (fs : List Fleet) (acc : List Planet × List Fleet × List ℕ),
      (∀ p ∈ acc.1, 0 ≤ p.ships ∧ 0 ≤ p.production) →
      (∀ f ∈ fs, 0 ≤ f.ships) →
      ∀ p ∈ (fs.foldl (stepFleet dt) acc).1, 0 ≤ p.ships ∧ 0 ≤ p.production := by
  intro fs
  induction fs with
  | nil => intro acc hacc _; simpa using hacc
  | cons f rest ih =>
    intro acc hacc hfs
    rw [List.foldl_cons]
    exact ih (stepFleet dt acc f)
      (stepFleet_planets_nonneg dt acc f hacc (hfs f (List.mem_cons_self f rest)))
      (fun g hg => hfs g (List.mem_cons_of_mem f hg))

/-- `step` preserves the ship-count invariant for nonnegative `dt`. -/
theorem step_ShipsInv (s : SimState) (dt : ℚ) (hdt : 0 ≤ dt)
    (h : ShipsInv s) : ShipsInv (s.step dt).1 := by
  constructor
  · exact foldl_stepFleet_planets_nonneg dt s.fleets
      (accrue dt s.planets, [], [])
      (accrue_nonneg dt hdt s.planets h.1)
      (fun f hf => le_trans zero_le_one (h.2 f hf))
  · intro g hg
    rcases foldl_stepFleet_live dt s.fleets (accrue dt s.planets, [], []) g hg
      with h0 | ⟨f, hf, rfl⟩
    · simp at h0
    · simpa using h.2 f hf

/-- Debiting at most the found planet's ship count keeps every planet's
ship count and production nonnegative. -/
theorem debitFirst_ok (ps : List Planet) (pid : ℕ) (amt : ℚ) (fp : Planet)
    (hfind : findPlanet ps pid = some fp) (hamt : amt ≤ fp.ships)
    (h : ∀ p ∈ ps, 0 ≤ p.ships ∧ 0 ≤ p.production) :
    ∀ q ∈ debitFirst ps pid amt, 0 ≤ q.ships ∧ 0 ≤ q.production := by
  induction ps with
  | nil => intro q hq; simp [debitFirst] at hq
  | cons a t ih =>
    by_cases ha : a.id = pid
    · rw [findPlanet, List.find?_cons_of_pos _ (by simpa using ha)] at hfind
      obtain rfl : a = fp := by simpa using hfind
      intro q hq
      rw [debitFirst, if_pos (by simpa using ha)] at hq
      rcases List.mem_cons.mp hq with rfl | hmem
      · exact ⟨sub_nonneg.mpr hamt, (h a (List.mem_cons_self _ _)).2⟩
      · exact h q (List.mem_cons_of_mem _ hmem)
    · rw [findPlanet, List.find?_cons_of_neg _ (by simpa using ha)] at hfind
      intro q hq
      rw [debitFirst, if_neg (by simpa using ha)] at hq
      rcases List.mem_cons.mp hq with rfl | hmem
      · exact h q (List.mem_cons_self _ _)
      · exact ih hfind (fun p hp => h p (List.mem_cons_of_mem _ hp)) q hmem

/-- One source-planet iteration of `issueOrders` keeps planets
nonnegative and creates only fleets of at least one ship. -/
theorem orderStep_inv (cfg : SimConfig) (o : Owner) (t : ℕ) (pct : ℚ)
    (dir : ℚ → ℚ → ℚ × ℚ) (target : Planet)
    (acc : List Planet × ℕ × List Fleet) (pid : ℕ)
    (hps : ∀ p ∈ acc.1, 0 ≤ p.ships ∧ 0 ≤ p.production)
    (hcr : ∀ g ∈ acc.2.2, 1 ≤ g.ships) :
    (∀ p ∈ (orderStep cfg o t pct dir target acc pid).1,
      0 ≤ p.ships ∧ 0 ≤ p.production) ∧
    (∀ g ∈ (orderStep cfg o t pct dir target acc pid).2.2, 1 ≤ g.ships) := by
  simp only [orderStep]
  cases hfind : findPlanet acc.1 pid with
  | none => exact ⟨hps, hcr⟩
  | some fromP =>
    dsimp only
    by_cases h1 : fromP.owner ≠ o
    · rw [if_pos h1]; exact ⟨hps, hcr⟩
    · rw [if_neg h1]
      by_cases h2 : fromP.id = t
      · rw [if_pos h2]; exact ⟨hps, hcr⟩
      · rw [if_neg h2]
        by_cases h3 : (⌊fromP.ships * min 1 pct⌋ : ℤ) ≤ 0
        · rw [if_pos h3]; exact ⟨hps, hcr⟩
        · rw [if_neg h3]
          have hmem : fromP ∈ acc.1 := by
            rw [findPlanet] at hfind
            exact List.mem_of_find?_eq_some hfind
          have hships := (hps fromP hmem).1
          have hsendle : ((⌊fromP.ships * min 1 pct⌋ : ℤ) : ℚ) ≤ fromP.ships :=
            le_trans (Int.floor_le _)
              (mul_le_of_le_one_right hships (min_le_left 1 pct))
          constructor
          · exact debitFirst_ok acc.1 pid _ fromP hfind hsendle hps
          · intro g hg
            rcases List.mem_append.mp hg with hmem' | hsing
            · exact hcr g hmem'
            · rw [List.mem_singleton.mp hsing]
              show (1 : ℚ) ≤ ((⌊fromP.ships * min 1 pct⌋ : ℤ) : ℚ)
              exact_mod_cast (by omega : (1 : ℤ) ≤ ⌊fromP.ships * min 1 pct⌋)

/-- The whole source-planet loop of `issueOrders` keeps planets
nonnegative and creates only fleets of at least one ship. -/
theorem foldl_orderStep_inv (cfg : SimConfig) (o : Owner) (t : ℕ) (pct : ℚ)
    (dir : ℚ → ℚ → ℚ × ℚ) (target : Planet) :
    ∀ (ids : List ℕ) (acc : List Planet × ℕ × List Fleet),
      (∀ p ∈ acc.1, 0 ≤ p.ships ∧ 0 ≤ p.production) →
      (∀ g ∈ acc.2.2, 1 ≤ g.ships) →
      (∀ p ∈ (ids.foldl (orderStep cfg o t pct dir target) acc).1,
        0 ≤ p.ships ∧ 0 ≤ p.production) ∧
      (∀ g ∈ (ids.foldl (orderStep cfg o t pct dir target) acc).2.2,
        1 ≤ g.ships) := by
  intro ids
  induction ids with
  | nil => intro acc hps hcr; exact ⟨hps, hcr⟩
  | cons i rest ih =>
    intro acc hps hcr
    rw [List.foldl_cons]
    have hstep := orderStep_inv cfg o t pct dir target acc i hps hcr
    exact ih (orderStep cfg o t pct dir target acc i) hstep.1 hstep.2

/-- `issueOrders` preserves the ship-count invariant. -/
theorem issueOrders_ShipsInv (s : SimState) (o : Owner) (ids : List ℕ)
    (t : ℕ) (pct : ℚ) (dir : ℚ → ℚ → ℚ × ℚ) (h : ShipsInv s) :
    ShipsInv (s.issueOrders o ids t pct dir).1 := by
  simp only [SimState.issueOrders]
  by_cases hp : pct ≤ 0
  · rw [if_pos hp]; exact h
  · rw [if_neg hp]
    cases htgt : findPlanet s.planets t with
    | none => exact h
    | some target =>
      dsimp only
      have hfold := foldl_orderStep_inv s.cfg o t pct dir target ids
        (s.planets, s.nextFleetId, []) h.1 (by intro g hg; simp at hg)
      constructor
      · exact hfold.1
      · intro g hg
        rcases List.mem_append.mp hg with hmem | hmem
        · exact h.2 g hmem
        · exact hfold.2 g hmem

/-- Any valid call sequence preserves the ship-count invariant. -/
theorem applyOps_ShipsInv (ops : List Op) :
    ∀ (s : SimState), ShipsInv s → OpsValid ops →
      ShipsInv (applyOps s ops) := by
  induction ops with
  | nil => intro s h _; simpa [applyOps] using h
  | cons op rest ih =>
    intro s h hv
    rw [applyOps, List.foldl_cons]
    have hv' : OpsValid rest := fun o ho => hv o (List.mem_cons_of_mem _ ho)
    have h1 : ShipsInv (applyOp s op) := by
      cases op with
      | order o ids t pct dir => exact issueOrders_ShipsInv s o ids t pct dir h
      | advance dt =>
        have hdt := hv _ (List.mem_cons_self _ _)
        exact step_ShipsInv s dt (by simpa using hdt) h
    exact ih (applyOp s op) h1 hv'

/-- A freshly sampled candidate planet has nonnegative ship count and
production when radii are sane and the random stream is nonnegative. -/
theorem mkCandidate_nonneg (cfg : SimConfig) (rand : ℕ → ℚ) (k idx : ℕ)
    (hminR : 0 ≤ cfg.minR) (hrange : cfg.minR ≤ cfg.maxR)
    (hrand : ∀ n, 0 ≤ rand n) :
    0 ≤ (mkCandidate cfg rand k idx).ships ∧
    0 ≤ (mkCandidate cfg rand k idx).production := by
  have hr : 0 ≤ cfg.minR + (cfg.maxR - cfg.minR) * rand (5 * k) :=
    add_nonneg hminR (mul_nonneg (sub_nonneg.mpr hrange) (hrand _))
  constructor
  · simp only [mkCandidate]
    have hz : (0 : ℤ) ≤ roundQ ((cfg.minR + (cfg.maxR - cfg.minR) * rand (5 * k)) *
        (6 / 5 + rand (5 * k + 4))) := by
      rw [roundQ]
      apply Int.floor_nonneg.mpr
      have h65 : (0 : ℚ) ≤ 6 / 5 := by norm_num
      have hm := mul_nonneg hr (add_nonneg h65 (hrand (5 * k + 4)))
      linarith
    exact_mod_cast hz
  · simp only [mkCandidate]
    have h35 : (0 : ℚ) ≤ 3 / 5 := by norm_num
    have h710 : (0 : ℚ) ≤ 7 / 10 := by norm_num
    exact mul_nonneg (div_nonneg hr (hminR.trans hrange))
      (add_nonneg h710 (mul_nonneg (hrand (5 * k + 3)) h35))

/-- All planets produced by the placement loop have nonnegative ship
counts and production. -/
theorem initMapLoopF_nonneg (cfg : SimConfig) (rand : ℕ → ℚ)
    (hminR : 0 ≤ cfg.minR) (hrange : cfg.minR ≤ cfg.maxR)
    (hrand : ∀ n, 0 ≤ rand n) :
    ∀ (fuel k : ℕ) (ps : List Planet),
      (∀ p ∈ ps, 0 ≤ p.ships ∧ 0 ≤ p.production) →
      ∀ p ∈ (initMapLoopF cfg rand fuel k ps).1,
        0 ≤ p.ships ∧ 0 ≤ p.production := by
  intro fuel
  induction fuel with
  | zero => intro k ps h; exact h
  | succ n ih =>
    intro k ps h
    simp only [initMapLoopF]
    by_cases hlen : ps.length < cfg.planetCount
    · rw [if_pos hlen]
      have hps' : ∀ p ∈ placeStep cfg rand k ps, 0 ≤ p.ships ∧ 0 ≤ p.production := by
        simp only [placeStep]
        by_cases hacc : ∀ p ∈ ps, distGt p.x p.y
            (mkCandidate cfg rand k ps.length).x
            (mkCandidate cfg rand k ps.length).y
            (p.r + (mkCandidate cfg rand k ps.length).r + 16)
        · rw [if_pos hacc]
          intro p hp
          rcases List.mem_append.mp hp with hm | hm
          · exact h p hm
          · rw [List.mem_singleton.mp hm]
            exact mkCandidate_nonneg cfg rand k ps.length hminR hrange hrand
        · rw [if_neg hacc]
          exact h
      by_cases hbrk : (placeStep cfg rand k ps).length > 2000
      · rw [if_pos hbrk]
        exact hps'
      · rw [if_neg hbrk]
        exact ih (k + 1) (placeStep cfg rand k ps) hps'
    · rw [if_neg hlen]
      exact h

/-- Turning a looked-up planet into a starting base keeps all ship
counts and productions nonnegative. -/
theorem set_makeStart_nonneg (ps : List Planet) (i : ℕ) (o : Owner)
    (h : ∀ p ∈ ps, 0 ≤ p.ships ∧ 0 ≤ p.production) :
    ∀ p ∈ (match ps[i]? with
           | some q => ps.set i (makeStart o q)
           | none => ps), 0 ≤ p.ships ∧ 0 ≤ p.production := by
  cases hg : ps[i]? with
  | none => exact h
  | some q =>
    dsimp only
    intro p hp
    rcases List.mem_or_eq_of_mem_set hp with hm | rfl
    · exact h p hm
    · exact ⟨le_trans (by norm_num) (le_max_left 40 (q.r * (11 / 5))),
        mul_nonneg (h q (List.getElem?_mem hg)).2 (by norm_num)⟩

/-- The base assignment keeps all ship counts and productions
nonnegative. -/
theorem assignBases_nonneg (cfg : SimConfig) (ps : List Planet)
    (h : ∀ p ∈ ps, 0 ≤ p.ships ∧ 0 ≤ p.production) :
    ∀ p ∈ assignBases cfg ps, 0 ≤ p.ships ∧ 0 ≤ p.production := by
  simp only [assignBases]
  by_cases hnp : cfg.numPlayers ≤ ps.length
  · rw [if_pos hnp]
    by_cases h2 : 2 ≤ cfg.numPlayers
    · rw [if_pos h2]
      exact set_makeStart_nonneg _ _ _ (set_makeStart_nonneg ps _ _ h)
    · rw [if_neg h2]
      exact set_makeStart_nonneg ps _ _ h
  · rw [if_neg hnp]
    exact h

/-- World generation establishes the ship-count invariant. -/
theorem initState_ShipsInv (cfg : SimConfig) (rand : ℕ → ℚ) (fuel : ℕ)
    (hminR : 0 ≤ cfg.minR) (hrange : cfg.minR ≤ cfg.maxR)
    (hrand : ∀ n, 0 ≤ rand n) : ShipsInv (initState cfg rand fuel) := by
  constructor
  · exact assignBases_nonneg cfg _
      (initMapLoopF_nonneg cfg rand hminR hrange hrand fuel 0 [] (by simp))
  · intro f hf
    simp [initState] at hf

/-- C9 (non-negative ship counts): in every state reachable from world
generation (any sane radius bounds, any nonnegative random stream, any
fuel) by any sequence of `issueOrders` and `step` calls with
nonnegative time deltas, every planet's ship count and production rate
is nonnegative and every live fleet carries at least one ship. -/
theorem ships_invariant (cfg : SimConfig) (rand : ℕ → ℚ) (fuel : ℕ)
    (ops : List Op) (hminR : 0 ≤ cfg.minR) (hrange : cfg.minR ≤ cfg.maxR)
    (hrand : ∀ n, 0 ≤ rand n) (hops : OpsValid ops) :
    ShipsInv (applyOps (initState cfg rand fuel) ops) :=
  applyOps_ShipsInv ops _ (initState_ShipsInv cfg rand fuel hminR hrange hrand)
    hops

/-- Witness: the default configuration with the all-zero random stream,
one placement iteration and one advance call satisfies the invariant. -/
theorem ships_invariant_witness :
    ShipsInv (applyOps (initState defaultCfg (fun _ => 0) 1) [Op.advance 1]) :=
  ships_invariant defaultCfg (fun _ => 0) 1 [Op.advance 1]
    (by norm_num [defaultCfg]) (by norm_num [defaultCfg])
    (fun _ => le_refl 0)
    (fun op hop => by
      have h := List.mem_singleton.mp hop
      subst h
      show (0 : ℚ) ≤ 1
      exact zero_le_one)
